import Mathlib

/-!
Shallow embedding of `src/single-linked-list/single-linked-list.h`.

`SingleLinkedList<Type>` stores a sentinel node `head_` (whose `next_node`
points at the first real node) and a redundant element count `size_`.  The
value-level state is captured by the list of node values reachable from
`head_.next_node` together with the stored `size_` field.  Iterators are
`Node*` values; relative to a given container state a node pointer is the
sentinel `&head_`, the pointer to the i-th real node, or null (`end()`).
Operations that dereference an invalid pointer in C++ (undefined behavior)
are modelled as returning `none`.
-/

set_option maxHeartbeats 1000000

namespace SLLSpec

/-- The container state: `chain` is the list of values stored in the nodes
reachable from the sentinel `head_`'s `next_node` (in chain order), and
`size_` is the separately stored count field of the C++ class. -/
structure SingleLinkedList (α : Type) where
  chain : List α
  size_ : Nat
  deriving DecidableEq, Repr

/-- A `BasicIterator`'s `node_` pointer, relative to a container state:
`head` is `&head_` (the sentinel, i.e. `before_begin()`), `node i` points at
the i-th real node of the chain, and `null` is the null pointer (`end()`,
or a default-constructed iterator). -/
inductive Ptr where
  | head : Ptr
  | node : Nat → Ptr
  | null : Ptr
  deriving DecidableEq, Repr

namespace SingleLinkedList

variable {α : Type}

/-- Default constructor `SingleLinkedList()`: empty chain, `size_ = 0`. -/
def new : SingleLinkedList α := ⟨[], 0⟩

/-- `begin()`: `Iterator(head_.next_node)` — null when the chain is empty,
otherwise a pointer to the first real node. -/
def begin (l : SingleLinkedList α) : Ptr :=
  match l.chain with
  | [] => .null
  | _ :: _ => .node 0

/-- `end()`: `Iterator(NULL)`. -/
def endIter (_l : SingleLinkedList α) : Ptr := .null

/-- `before_begin()` / `cbefore_begin()`: `Iterator(&head_)`. -/
def beforeBegin (_l : SingleLinkedList α) : Ptr := .head

/-- `PushFront(value)`: `head_.next_node = new Node(value, head_.next_node); ++size_;`. -/
def PushFront (l : SingleLinkedList α) (value : α) : SingleLinkedList α :=
  ⟨value :: l.chain, l.size_ + 1⟩

/-- `PopFront()`: if `head_.next_node != nullptr`, unlink and delete the first
node and decrement `size_`; otherwise do nothing. -/
def PopFront (l : SingleLinkedList α) : SingleLinkedList α :=
  match l.chain with
  | [] => l
  | _ :: rest => ⟨rest, l.size_ - 1⟩

/-- The loop body of `Clear()`: `while (size_) { PopFront(); }`.  The fuel
argument bounds the number of iterations; `Clear` passes `size_` as fuel,
which is exactly the number of iterations the C++ loop performs whenever
`size_` equals the chain length (each iteration on a non-empty chain
decrements `size_` by one).  On a state violating that invariant with
`size_ > 0` and an empty chain the C++ loop would not terminate; such states
are unreachable. -/
def clearLoop : Nat → SingleLinkedList α → SingleLinkedList α
  | 0, l => l
  | fuel + 1, l => if l.size_ = 0 then l else clearLoop fuel l.PopFront

/-- `Clear()`: repeated `PopFront()` while `size_` is nonzero. -/
def Clear (l : SingleLinkedList α) : SingleLinkedList α :=
  clearLoop l.size_ l

/-- `InsertAfter(pos, value)`.  If `pos == before_begin()` (pointer equality
with `&head_`), it calls `PushFront` and returns `begin()`.  Otherwise it
dereferences `pos.node_`: valid only when `pos` points at an existing node
(`node i` with `i < chain.length`); the new node is spliced after node `i`
and a pointer to it (index `i+1`) is returned, with `size_++`.  The invalid
dereferences — `null`, or a dangling `node i` — are undefined behavior in
the C++ source and are modelled as `none`. -/
def InsertAfter (l : SingleLinkedList α) (pos : Ptr) (value : α) :
    Option (SingleLinkedList α × Ptr) :=
  match pos with
  | .head =>
      let l' := l.PushFront value
      some (l', l'.begin)
  | .node i =>
      if i < l.chain.length then
        some (⟨l.chain.insertIdx (i + 1) value, l.size_ + 1⟩, .node (i + 1))
      else
        none
  | .null => none

/-- `EraseAfter(pos)`.  If `pos == before_begin()`, it calls `PopFront` and
returns `begin()`.  Otherwise it reads `pos.node_->next_node->next_node`,
deletes `pos.node_->next_node` and relinks: valid only when node `i` and
node `i+1` both exist (`i + 1 < chain.length`); the returned pointer is
`pos.node_->next_node` after the relink, i.e. the node now at index `i+1`
of the shortened chain, or null when no such node remains.  The invalid
dereferences are undefined behavior in the C++ source, modelled as `none`. -/
def EraseAfter (l : SingleLinkedList α) (pos : Ptr) :
    Option (SingleLinkedList α × Ptr) :=
  match pos with
  | .head =>
      let l' := l.PopFront
      some (l', l'.begin)
  | .node i =>
      if i + 1 < l.chain.length then
        let chain' := l.chain.eraseIdx (i + 1)
        some (⟨chain', l.size_ - 1⟩,
              if i + 1 < chain'.length then .node (i + 1) else .null)
      else
        none
  | .null => none

/-- Constructor from `std::initializer_list<Type>`: iterates from
`values.end()-1` down to `values.begin()`, calling `PushFront(*it)` — for a
non-empty list it pushes the values in reverse order onto an empty
container.  For the empty list, `values.end()-1` computes a pointer before
the start of a range with `begin() == end()`: undefined behavior (in
practice the loop condition `it >= values.begin()` holds and a wild pointer
is dereferenced), modelled as `none`. -/
def fromInitList (values : List α) : Option (SingleLinkedList α) :=
  match values with
  | [] => none
  | v :: vs => some ((v :: vs).reverse.foldl (fun acc v => acc.PushFront v) new)

/-- Copy constructor `SingleLinkedList(const SingleLinkedList& other)`:
builds `tmp1` by pushing `other`'s values front-to-back (reversed chain),
then builds `tmp` by pushing `tmp1`'s values front-to-back (reversing
again), and finally swaps `tmp` into `this` (which was empty). -/
def copyCtor (other : SingleLinkedList α) : SingleLinkedList α :=
  let tmp1 := other.chain.foldl (fun acc v => acc.PushFront v) new
  let tmp := tmp1.chain.foldl (fun acc v => acc.PushFront v) new
  tmp

/-- `swap(other)`: exchanges `head_.next_node` and `size_` between the two
containers; the result pair is (new `this`, new `other`). -/
def swapFn (l other : SingleLinkedList α) :
    SingleLinkedList α × SingleLinkedList α :=
  (⟨other.chain, other.size_⟩, ⟨l.chain, l.size_⟩)

/-- Copy assignment `operator=`: when `this != &rhs` it copy-constructs a
temporary from `rhs` and swaps it into `this`; on self-assignment it does
nothing.  The address comparison `this != &rhs` is not observable in a
value-level model, so it is passed as the flag `selfAssign`. -/
def operatorAssign (l rhs : SingleLinkedList α) (selfAssign : Bool) :
    SingleLinkedList α :=
  if selfAssign then l else copyCtor rhs

/-- `GetSize()`: reads the stored `size_` field. -/
def GetSize (l : SingleLinkedList α) : Nat := l.size_

/-- `IsEmpty()`: `size_ == 0`. -/
def IsEmpty (l : SingleLinkedList α) : Bool := l.size_ == 0

/-- `BasicIterator::operator->`: `if (node_) return &(node_->value); return
nullptr;`.  A null pointer yields `none` (the returned `nullptr`); a pointer
to the sentinel yields the sentinel node's default-initialized `value`
field; a pointer to real node `i` yields that node's value (`getD` with a
default stands in for the dangling-pointer case `i ≥ chain.length`, which
is not reachable from a valid iterator). -/
def arrowOp [Inhabited α] (l : SingleLinkedList α) : Ptr → Option α
  | .null => none
  | .head => some default
  | .node i => some (l.chain.getD i default)

end SingleLinkedList

/-- `std::equal(lhs.begin(), lhs.end(), rhs.begin(), rhs.end())` (the
four-iterator form): true iff the ranges have the same length and equal
elements position by position. -/
def stdEqual {α : Type} [DecidableEq α] : List α → List α → Bool
  | [], [] => true
  | a :: as, b :: bs => if a = b then stdEqual as bs else false
  | _, _ => false

/-- `std::lexicographical_compare(lhs.begin(), lhs.end(), rhs.begin(),
rhs.end())`: walk both ranges; the first position where one element is less
decides; if the first range ends first (strict prefix) the result is true;
otherwise false. -/
def lexCompare {α : Type} [LinearOrder α] : List α → List α → Bool
  | _, [] => false
  | [], _ :: _ => true
  | a :: as, b :: bs =>
      if a < b then true
      else if b < a then false
      else lexCompare as bs

/-- Free `operator==`: `std::equal` over the two chains. -/
def eqOp {α : Type} [DecidableEq α] (lhs rhs : SingleLinkedList α) : Bool :=
  stdEqual lhs.chain rhs.chain

/-- Free `operator!=`: `!(lhs == rhs)`. -/
def neOp {α : Type} [DecidableEq α] (lhs rhs : SingleLinkedList α) : Bool :=
  !(eqOp lhs rhs)

/-- Free `operator<`: `std::lexicographical_compare` over the two chains. -/
def ltOp {α : Type} [LinearOrder α] (lhs rhs : SingleLinkedList α) : Bool :=
  lexCompare lhs.chain rhs.chain

/-- Free `operator<=`: `!(rhs < lhs)`. -/
def leOp {α : Type} [LinearOrder α] (lhs rhs : SingleLinkedList α) : Bool :=
  !(ltOp rhs lhs)

/-- Free `operator>`: `rhs < lhs`. -/
def gtOp {α : Type} [LinearOrder α] (lhs rhs : SingleLinkedList α) : Bool :=
  ltOp rhs lhs

/-- Free `operator>=` exactly as written in the source: `!(lhs > rhs)`. -/
def geOp {α : Type} [LinearOrder α] (lhs rhs : SingleLinkedList α) : Bool :=
  !(gtOp lhs rhs)

/-- The container states reachable by sequences of public operations,
starting from the three constructors and closed under the mutators (for
`InsertAfter`/`EraseAfter`, at positions where the C++ has defined
behavior, i.e. where the model returns `some`). -/
inductive Reachable {α : Type} : SingleLinkedList α → Prop where
  | ctorDefault : Reachable SingleLinkedList.new
  | ctorInitList (vs : List α) {l} :
      SingleLinkedList.fromInitList vs = some l → Reachable l
  | ctorCopy {l} : Reachable l → Reachable (SingleLinkedList.copyCtor l)
  | assign {l r} (b : Bool) : Reachable l → Reachable r →
      Reachable (SingleLinkedList.operatorAssign l r b)
  | push {l} (v : α) : Reachable l → Reachable (l.PushFront v)
  | pop {l} : Reachable l → Reachable l.PopFront
  | clear {l} : Reachable l → Reachable l.Clear
  | insert {l l' p q v} : Reachable l →
      l.InsertAfter p v = some (l', q) → Reachable l'
  | erase {l l' p q} : Reachable l →
      l.EraseAfter p = some (l', q) → Reachable l'
  | swapLeft {l r} : Reachable l → Reachable r →
      Reachable (SingleLinkedList.swapFn l r).1
  | swapRight {l r} : Reachable l → Reachable r →
      Reachable (SingleLinkedList.swapFn l r).2

end SLLSpec

namespace SLLSpec

open SingleLinkedList

/-! ### Helper lemmas -/

lemma foldl_push_chain {α : Type} (vs : List α) (acc : SingleLinkedList α) :
    (vs.foldl (fun a v => a.PushFront v) acc).chain = vs.reverse ++ acc.chain := by
  induction vs generalizing acc with
  | nil => simp
  | cons v vs ih =>
      rw [List.foldl_cons, ih]
      simp [PushFront]

lemma foldl_push_size {α : Type} (vs : List α) (acc : SingleLinkedList α) :
    (vs.foldl (fun a v => a.PushFront v) acc).size_ = acc.size_ + vs.length := by
  induction vs generalizing acc with
  | nil => simp
  | cons v vs ih =>
      rw [List.foldl_cons, ih]
      simp [PushFront]
      omega

lemma initListBuild_eq {α : Type} (vs : List α) :
    vs.reverse.foldl (fun acc v => acc.PushFront v) new =
      (⟨vs, vs.length⟩ : SingleLinkedList α) := by
  have hc := foldl_push_chain vs.reverse (new : SingleLinkedList α)
  have hs := foldl_push_size vs.reverse (new : SingleLinkedList α)
  generalize hx : vs.reverse.foldl (fun acc v => acc.PushFront v)
      (new : SingleLinkedList α) = x at hc hs ⊢
  obtain ⟨c, s⟩ := x
  simp only [SingleLinkedList.mk.injEq]
  constructor
  · simpa [new] using hc
  · simpa [new] using hs

lemma copyCtor_chain {α : Type} (l : SingleLinkedList α) :
    (copyCtor l).chain = l.chain := by
  show (((l.chain.foldl (fun a v => a.PushFront v) new).chain.foldl
      (fun a v => a.PushFront v) new)).chain = l.chain
  rw [foldl_push_chain, foldl_push_chain]
  simp [new]

lemma copyCtor_size {α : Type} (l : SingleLinkedList α) :
    (copyCtor l).size_ = l.chain.length := by
  show (((l.chain.foldl (fun a v => a.PushFront v) new).chain.foldl
      (fun a v => a.PushFront v) new)).size_ = l.chain.length
  rw [foldl_push_size, foldl_push_chain]
  simp [new]

lemma stdEqual_iff {α : Type} [DecidableEq α] :
    ∀ as bs : List α, stdEqual as bs = true ↔ as = bs := by
  intro as
  induction as with
  | nil => intro bs; cases bs <;> simp [stdEqual]
  | cons a as ih =>
      intro bs
      cases bs with
      | nil => simp [stdEqual]
      | cons b bs =>
          by_cases hab : a = b
          · simp [stdEqual, hab, ih]
          · simp [stdEqual, hab]

lemma clearLoop_eq_new {α : Type} :
    ∀ (n : Nat) (l : SingleLinkedList α),
      l.size_ = n → l.chain.length = n → clearLoop n l = new := by
  intro n
  induction n with
  | zero =>
      intro l hs hc
      obtain ⟨chain, size⟩ := l
      simp at hs hc
      simp [clearLoop, new, hs, hc]
  | succ n ih =>
      intro l hs hc
      obtain ⟨chain, size⟩ := l
      cases chain with
      | nil => simp at hc
      | cons c rest =>
          simp at hs hc
          simp [clearLoop, hs, PopFront]
          exact ih ⟨rest, n⟩ (by simp [hs]) (by simp [hc])

lemma Clear_eq_new {α : Type} (l : SingleLinkedList α)
    (h : l.size_ = l.chain.length) : l.Clear = new :=
  clearLoop_eq_new l.size_ l rfl h.symm

lemma lexCompare_iff_lex {α : Type} [LinearOrder α] :
    ∀ as bs : List α, lexCompare as bs = true ↔ List.Lex (· < ·) as bs := by
  intro as
  induction as with
  | nil =>
      intro bs
      cases bs with
      | nil => simp [lexCompare]
      | cons b bs => simp [lexCompare]; exact List.Lex.nil
  | cons a as ih =>
      intro bs
      cases bs with
      | nil => simp [lexCompare]
      | cons b bs =>
          rcases lt_trichotomy a b with hab | hab | hab
          · simp [lexCompare, hab]
            exact List.Lex.rel hab
          · subst hab
            simp [lexCompare, lt_irrefl, ih]
            constructor
            · exact fun h => List.Lex.cons h
            · intro h
              cases h with
              | cons h => exact h
              | rel h => exact absurd h (lt_irrefl a)
          · simp [lexCompare, hab, not_lt_of_gt hab]
            intro h
            cases h with
            | cons h => exact absurd rfl (ne_of_gt hab)
            | rel h => exact absurd h (not_lt_of_gt hab)

lemma lexCompare_self_false {α : Type} [LinearOrder α] :
    ∀ as : List α, lexCompare as as = false := by
  intro as
  induction as with
  | nil => simp [lexCompare]
  | cons a as ih => simp [lexCompare, lt_irrefl, ih]

end SLLSpec

namespace SLLSpec

open SingleLinkedList

lemma popFront_inv {α : Type} {l : SingleLinkedList α}
    (h : l.size_ = l.chain.length) :
    (l.PopFront).size_ = (l.PopFront).chain.length := by
  obtain ⟨chain, size⟩ := l
  cases chain with
  | nil => simpa [PopFront] using h
  | cons c rest =>
      simp [PopFront] at h ⊢
      omega

lemma insertAfter_inv {α : Type} {l l' : SingleLinkedList α} {p q : Ptr} {v : α}
    (ih : l.size_ = l.chain.length)
    (heq : l.InsertAfter p v = some (l', q)) :
    l'.size_ = l'.chain.length := by
  cases p with
  | head =>
      simp only [InsertAfter, Option.some.injEq, Prod.mk.injEq] at heq
      obtain ⟨rfl, -⟩ := heq
      simp [PushFront, ih]
  | node i =>
      simp only [InsertAfter] at heq
      split at heq
      · rename_i hlt
        simp only [Option.some.injEq, Prod.mk.injEq] at heq
        obtain ⟨rfl, -⟩ := heq
        show l.size_ + 1 = (List.insertIdx (i + 1) v l.chain).length
        rw [List.length_insertIdx _ _ (by omega)]
        omega
      · exact absurd heq (by simp)
  | null => simp [InsertAfter] at heq

lemma eraseAfter_inv {α : Type} {l l' : SingleLinkedList α} {p q : Ptr}
    (ih : l.size_ = l.chain.length)
    (heq : l.EraseAfter p = some (l', q)) :
    l'.size_ = l'.chain.length := by
  cases p with
  | head =>
      simp only [EraseAfter, Option.some.injEq, Prod.mk.injEq] at heq
      obtain ⟨rfl, -⟩ := heq
      exact popFront_inv ih
  | node i =>
      simp only [EraseAfter] at heq
      split at heq
      · rename_i hlt
        simp only [Option.some.injEq, Prod.mk.injEq] at heq
        obtain ⟨rfl, -⟩ := heq
        show l.size_ - 1 = (l.chain.eraseIdx (i + 1)).length
        have := List.length_eraseIdx_add_one hlt
        omega
      · exact absurd heq (by simp)
  | null => simp [EraseAfter] at heq

/-- C1: every container state reachable through the public operations
(default construction, initializer-list construction, copy construction,
copy assignment, PushFront, PopFront, Clear, InsertAfter and EraseAfter at
valid positions, swap) keeps the stored count `size_` equal to the number
of nodes in the chain hanging off the sentinel's next link.  The chain is a
Lean `List`, hence finite and acyclic by construction. -/
theorem C1_size_matches_chain {α : Type} {l : SingleLinkedList α}
    (h : Reachable l) : l.size_ = l.chain.length := by
  induction h with
  | ctorDefault => rfl
  | ctorInitList vs heq =>
      cases vs with
      | nil => exact absurd heq (by simp [fromInitList])
      | cons v vs =>
          simp only [fromInitList, Option.some.injEq] at heq
          rw [← heq, initListBuild_eq]
  | ctorCopy _ _ => rw [copyCtor_size, copyCtor_chain]
  | assign b _ _ ihl ihr =>
      cases b <;> simp [operatorAssign, copyCtor_size, copyCtor_chain, ihl]
  | push v _ ih => simp [PushFront, ih]
  | pop _ ih => exact popFront_inv ih
  | clear _ ih =>
      rw [Clear_eq_new _ ih]
      rfl
  | insert _ heq ih => exact insertAfter_inv ih heq
  | erase _ heq ih => exact eraseAfter_inv ih heq
  | swapLeft _ _ ihl ihr => simpa [swapFn] using ihr
  | swapRight _ _ ihl ihr => simpa [swapFn] using ihl

/-- Witness for C1 at a concrete reachable state. -/
theorem C1_size_matches_chain_witness :
    (⟨[1, 2, 3], 3⟩ : SingleLinkedList Int).size_ =
      (⟨[1, 2, 3], 3⟩ : SingleLinkedList Int).chain.length :=
  C1_size_matches_chain (Reachable.ctorInitList [1, 2, 3] (by decide))

/-- C2: the copy constructor produces a container with the same values in
the same front-to-back order as the source, its stored count equal to the
source's chain length, and `operator==` between copy and original holds.
In this value-level model the copy is a fresh value, so later mutations of
the copy cannot affect the original (the C++ copy allocates all-new nodes
via `PushFront`, sharing none). -/
theorem C2_copyCtor {α : Type} [DecidableEq α] (L : SingleLinkedList α) :
    eqOp (copyCtor L) L = true ∧ (copyCtor L).chain = L.chain ∧
      (copyCtor L).size_ = L.chain.length :=
  ⟨(stdEqual_iff _ _).mpr (copyCtor_chain L), copyCtor_chain L, copyCtor_size L⟩

/-- C4 counterexample: at n = 0 the initializer-list constructor does not
yield an empty container.  Its loop bound `values.end()-1` is computed from
a range with `begin() == end()`, which is undefined behavior, so the empty
input has no defined result (`none`), in particular not the empty
container. -/
theorem C4_initList_empty_counterexample :
    fromInitList ([] : List Int) ≠ some new := by decide

/-- C4 (amended): for every non-empty ordered list of initial values
`v1..vn` (n ≥ 1), constructing from the initializer list yields the chain
`v1, ..., vn` front-to-back (not reversed) with stored count `n`.  The
n = 0 case is dropped: there the constructor's `values.end()-1` computation
is undefined behavior, so no empty-container guarantee holds. -/
theorem C4_initList_order {α : Type} (vs : List α) (h : vs ≠ []) :
    fromInitList vs = some ⟨vs, vs.length⟩ := by
  cases vs with
  | nil => exact absurd rfl h
  | cons v vs =>
      simp only [fromInitList]
      rw [initListBuild_eq]

/-- Witness for C4 on the concrete initializer list [1, 2, 3]. -/
theorem C4_initList_order_witness :
    fromInitList ([1, 2, 3] : List Int) = some ⟨[1, 2, 3], 3⟩ :=
  C4_initList_order [1, 2, 3] (by decide)

end SLLSpec

namespace SLLSpec

open SingleLinkedList

lemma lex_append_ne {α : Type} [LinearOrder α] :
    ∀ (as cs : List α), cs ≠ [] → List.Lex (· < ·) as (as ++ cs)
  | [], _ :: _, _ => List.Lex.nil
  | [], [], h => absurd rfl h
  | _ :: as, cs, h => List.Lex.cons (lex_append_ne as cs h)

/-- C3: evaluation at the failing input A = [1], B = [2] (over Int).  The
source's `operator>=` is written `!(lhs > rhs)`, i.e. `!(rhs < lhs)`, which
is operator<= rather than the standard `!(lhs < rhs)`: here `geOp A B` is
true while `A < B` also holds, contradicting the claimed "A >= B iff not
(A < B)".  The `operator<=` and `operator>` parts of the claim do hold. -/
theorem C3_geOp_failing_input :
    geOp (⟨[1], 1⟩ : SingleLinkedList Int) ⟨[2], 1⟩ = true ∧
    ltOp (⟨[1], 1⟩ : SingleLinkedList Int) ⟨[2], 1⟩ = true ∧
    (∀ A B : SingleLinkedList Int,
      leOp A B = !(ltOp B A) ∧ gtOp A B = ltOp B A) :=
  ⟨by decide, by decide, fun A B => ⟨rfl, rfl⟩⟩

/-- C5: `InsertAfter(before_begin(), v)` produces exactly the `PushFront v`
state and returns a pointer to the new first node (index 0); on a non-empty
container, `EraseAfter(before_begin())` produces exactly the `PopFront`
state and returns `begin()` of that state, the new first element. -/
theorem C5_beforeBegin_equiv {α : Type} (l : SingleLinkedList α) (v : α) :
    l.InsertAfter Ptr.head v = some (l.PushFront v, Ptr.node 0) ∧
    (l.chain ≠ [] →
      l.EraseAfter Ptr.head = some (l.PopFront, (l.PopFront).begin)) :=
  ⟨rfl, fun _ => rfl⟩

/-- Witness for C5 on the concrete container [5, 7]. -/
theorem C5_beforeBegin_equiv_witness :
    (⟨[5, 7], 2⟩ : SingleLinkedList Int).EraseAfter Ptr.head =
      some (⟨[7], 1⟩, Ptr.node 0) :=
  (C5_beforeBegin_equiv (⟨[5, 7], 2⟩ : SingleLinkedList Int) 0).2 (by decide)

/-- C6: `operator==` holds iff the two chains have the same length and equal
values at every position (front to back), and `operator!=` is its boolean
negation. -/
theorem C6_equality_pointwise {α : Type} [DecidableEq α]
    (A B : SingleLinkedList α) :
    (eqOp A B = true ↔
      (A.chain.length = B.chain.length ∧
        ∀ i : Nat, A.chain.get? i = B.chain.get? i)) ∧
    neOp A B = !(eqOp A B) := by
  constructor
  · rw [eqOp, stdEqual_iff]
    constructor
    · intro hAB
      rw [hAB]
      exact ⟨rfl, fun _ => rfl⟩
    · rintro ⟨-, h⟩
      exact List.ext_get?_iff.mpr h
  · rfl

/-- C7: `operator<` is the standard lexicographic strict order on the
chains (first unequal position decides, captured by `List.Lex (· < ·)`);
a strict prefix is less; equal containers are neither less nor greater;
and the two concrete instances [1,2,3] < [1,2,4] and [1,2] < [1,2,3]
hold. -/
theorem C7_lexicographic {α : Type} [LinearOrder α] (A B : SingleLinkedList α) :
    (ltOp A B = true ↔ List.Lex (· < ·) A.chain B.chain) ∧
    ((∃ cs, cs ≠ [] ∧ B.chain = A.chain ++ cs) → ltOp A B = true) ∧
    ltOp A A = false ∧ gtOp A A = false ∧
    ltOp (⟨[1, 2, 3], 3⟩ : SingleLinkedList Int) ⟨[1, 2, 4], 3⟩ = true ∧
    ltOp (⟨[1, 2], 2⟩ : SingleLinkedList Int) ⟨[1, 2, 3], 3⟩ = true := by
  refine ⟨lexCompare_iff_lex _ _, ?_, lexCompare_self_false _,
    lexCompare_self_false _, by decide, by decide⟩
  rintro ⟨cs, hcs, hB⟩
  rw [ltOp, lexCompare_iff_lex, hB]
  exact lex_append_ne _ _ hcs

/-- Witness for C7 on the concrete containers [1] and [1, 5]. -/
theorem C7_lexicographic_witness :
    ltOp (⟨[1], 1⟩ : SingleLinkedList Int) ⟨[1, 5], 2⟩ = true :=
  (C7_lexicographic (⟨[1], 1⟩ : SingleLinkedList Int) ⟨[1, 5], 2⟩).2.1
    ⟨[5], by decide, by decide⟩

/-- C8: `PopFront` and `Clear` on the empty container are no-ops leaving
size 0, and `Clear` on any container (satisfying the count invariant, which
all reachable containers do) leaves the valid empty state: size 0 and no
reachable nodes. -/
theorem C8_clear_pop_noop {α : Type} (l : SingleLinkedList α)
    (hinv : l.size_ = l.chain.length) :
    (new : SingleLinkedList α).PopFront = new ∧
    (new : SingleLinkedList α).Clear = new ∧
    l.Clear = new ∧ l.Clear.size_ = 0 ∧ l.Clear.chain = [] := by
  refine ⟨rfl, rfl, Clear_eq_new l hinv, ?_, ?_⟩ <;>
    rw [Clear_eq_new l hinv] <;> rfl

/-- Witness for C8 on the concrete container [4, 4]. -/
theorem C8_clear_pop_noop_witness :
    (⟨[4, 4], 2⟩ : SingleLinkedList Int).Clear = new :=
  (C8_clear_pop_noop (⟨[4, 4], 2⟩ : SingleLinkedList Int) (by decide)).2.2.1

/-- C9: `operator->` on an iterator whose pointer is null returns the null
pointer (modelled `none`) rather than dereferencing, while on an iterator
to an existing element it returns a pointer to that element's value;
`operator*`, by contrast, dereferences unconditionally. -/
theorem C9_arrow_defensive {α : Type} [Inhabited α] (l : SingleLinkedList α)
    (i : Nat) (h : i < l.chain.length) :
    arrowOp l Ptr.null = none ∧
    arrowOp l (Ptr.node i) = some (l.chain.get ⟨i, h⟩) := by
  refine ⟨rfl, ?_⟩
  show some (l.chain.getD i default) = some (l.chain.get ⟨i, h⟩)
  rw [List.getD_eq_getElem l.chain default h]
  simp

/-- Witness for C9 on the concrete container [9, 8]. -/
theorem C9_arrow_defensive_witness :
    arrowOp (⟨[9, 8], 2⟩ : SingleLinkedList Int) Ptr.null = none ∧
    arrowOp (⟨[9, 8], 2⟩ : SingleLinkedList Int) (Ptr.node 1) = some 8 := by
  have h := C9_arrow_defensive (⟨[9, 8], 2⟩ : SingleLinkedList Int) 1 (by decide)
  exact ⟨h.1, h.2⟩

/-- C10: on the empty container, `EraseAfter(before_begin())` takes the
`PopFront` branch before any node dereference: the container stays empty
with size 0 and the returned iterator equals `end()` (the null pointer). -/
theorem C10_eraseAfter_empty :
    (new : SingleLinkedList Int).EraseAfter Ptr.head =
      some (new, (new : SingleLinkedList Int).endIter) ∧
    (new : SingleLinkedList Int).size_ = 0 ∧
    (new : SingleLinkedList Int).chain = [] :=
  ⟨rfl, rfl, rfl⟩

end SLLSpec
